import Mathlib

/-!
Verification of the session aggregation and summarization engine of the
mobile-timer repository (the Stopwatch component: timer clock, session
recorder, session set store, period aggregator, daily breakdown deriver).

The JavaScript runtime is modelled with a fixed UTC offset of zero, so the
civil fields stored in a `Date` coincide with the fields of its ISO-8601
rendering, and `getTime()` ordering coincides with lexicographic ordering of
the civil fields (year, month, day, hour, minute, second, millisecond).
`Date` values are modelled as normalized civil datetimes, which is what the
JS `Date` type always holds.
-/

namespace MobileTimer

open scoped List

/-- Proleptic Gregorian leap year rule, as implemented by the JS `Date`. -/
def isLeapYear (y : Int) : Bool :=
  (y % 4 == 0 && y % 100 != 0) || (y % 400 == 0)

/-- Number of days of month `m` (0-indexed, January = 0) of year `y`. -/
def daysInMonth (y : Int) (m : Nat) : Nat :=
  if m = 1 then (if isLeapYear y then 29 else 28)
  else if m = 3 ∨ m = 5 ∨ m = 8 ∨ m = 10 then 30
  else 31

/-- A JS `Date`, as the normalized civil datetime it denotes (UTC model).
`month` is 0-indexed as returned by `getMonth`; `day` is 1-based as returned
by `getDate`. -/
@[ext]
structure JSDate where
  year : Int
  month : Nat
  day : Nat
  hour : Nat
  minute : Nat
  second : Nat
  ms : Nat
deriving DecidableEq, Repr

/-- Normalization performed by the JS `Date(year, month, day, ...)`
constructor: month overflow rolls into the year, day `0` means the last day
of the previous month, and a day one past the end of the month rolls into
the next month.  This matches JS exactly for the argument ranges this module
produces (`0 ≤ day ≤ daysInMonth + 1`); the `min` clamp beyond that range is
never reached from the embedded code. -/
def normYMD (y : Int) (m : Nat) (d : Nat) : Int × Nat × Nat :=
  let y' : Int := y + (m / 12 : Nat)
  let m' : Nat := m % 12
  if d = 0 then
    if m' = 0 then (y' - 1, 11, daysInMonth (y' - 1) 11)
    else (y', m' - 1, daysInMonth y' (m' - 1))
  else if d ≤ daysInMonth y' m' then (y', m', d)
  else if m' = 11 then (y' + 1, 0, min (d - daysInMonth y' m') 31)
  else (y', m' + 1, min (d - daysInMonth y' m') (daysInMonth y' (m' + 1)))

/-- The value of `new Date(y, m, d)` (time fields zero). -/
def dateAtMidnight (y : Int) (m : Nat) (d : Nat) : JSDate :=
  let c := normYMD y m d
  ⟨c.1, c.2.1, c.2.2, 0, 0, 0, 0⟩

/-- The value of `new Date(y, m, d, 23, 59, 59, 999)`. -/
def dateAtEndOfDay (y : Int) (m : Nat) (d : Nat) : JSDate :=
  let c := normYMD y m d
  ⟨c.1, c.2.1, c.2.2, 23, 59, 59, 999⟩

/-- Lexicographic comparison of integer sequences; the building block for
comparisons of civil datetimes. -/
def lexLe : List Int → List Int → Bool
  | [], _ => true
  | _ :: _, [] => true
  | x :: xs, y :: ys => if x ≠ y then x < y else lexLe xs ys

/-- The civil fields of a date, most significant first. -/
def dateFields (d : JSDate) : List Int :=
  [d.year, (d.month : Int), (d.day : Int), (d.hour : Int), (d.minute : Int),
    (d.second : Int), (d.ms : Int)]

/-- Models `a.getTime() <= b.getTime()` (and the JS `<=` on dates): in the
fixed-offset model, instant order is lexicographic order of civil fields. -/
def leDate (a b : JSDate) : Bool := lexLe (dateFields a) (dateFields b)

/-- Strict version of `leDate`: `a.getTime() < b.getTime()`. -/
def ltDate (a b : JSDate) : Prop := leDate a b = true ∧ a ≠ b

/-- The step `date.setDate(date.getDate() + 1)` of the histogram loop:
advance one calendar day keeping the time of day. -/
def nextDayDate (dt : JSDate) : JSDate :=
  let c := normYMD dt.year dt.month (dt.day + 1)
  ⟨c.1, c.2.1, c.2.2, dt.hour, dt.minute, dt.second, dt.ms⟩

/-!  ## Data model (interfaces Session, SavedSessionSet, SessionSummaryPeriod) -/

/-- One completed timing interval (`interface Session`).  `id` is the
`Date.now()` value at the stop, `duration` the elapsed milliseconds. -/
structure Session where
  id : Int
  duration : Nat
  timestamp : JSDate
deriving DecidableEq, Repr

/-- A persisted snapshot of a batch (`interface SavedSessionSet`). -/
structure SavedSessionSet where
  id : String
  name : String
  sessions : List Session
  totalTime : Nat
  createdAt : JSDate
deriving DecidableEq, Repr

/-- A derived half-month aggregate (`interface SessionSummaryPeriod`). -/
structure SessionSummaryPeriod where
  startDate : JSDate
  endDate : JSDate
  sessions : List SavedSessionSet
  totalTime : Nat
  sessionCount : Nat
deriving DecidableEq, Repr

/-!  ## Timer clock and session recorder (component state and handlers) -/

/-- Serialized form of a `Session` inside the `savedSessionSets` JSON value:
`timestamp` is serialized as an ISO-8601 string. -/
structure WireSession where
  id : Int
  duration : Nat
  timestamp : String
deriving DecidableEq, Repr

/-- Serialized form of a `SavedSessionSet` inside the persisted JSON value. -/
structure WireSet where
  id : String
  name : String
  sessions : List WireSession
  totalTime : Nat
  createdAt : String
deriving DecidableEq, Repr

/-- The component state relevant to the core: the clock (`time`,
`isRunning`), the current batch (`sessions`), the in-memory collection
(`savedSessionSets`), and the value persisted by the key-value provider
under the key `savedSessionSets` (`none` when the key is absent; the JSON
text is represented by its parsed shape, since `JSON.parse` after
`JSON.stringify` is the identity on this shape). -/
structure AppState where
  time : Nat
  isRunning : Bool
  sessions : List Session
  savedSessionSets : List SavedSessionSet
  storage : Option (List WireSet)
deriving DecidableEq, Repr

/-- Outcome of a store operation, as surfaced to the caller. -/
inductive OpResult where
  | success
  | validationNoOp
  | cancelled
  | storageWriteError
deriving DecidableEq, Repr

/-- The 10 ms interval callback: `setTime(prevTime => prevTime + 10)`,
registered only while `isRunning`. -/
def tick (st : AppState) : AppState :=
  if st.isRunning then { st with time := st.time + 10 } else st

/-- `handleStart`. -/
def handleStart (st : AppState) : AppState := { st with isRunning := true }

/-- `handleStop`.  `nowMs` models `Date.now()` and `nowDate` models
`new Date()` at the stop instant. -/
def handleStop (nowMs : Int) (nowDate : JSDate) (st : AppState) : AppState :=
  let st1 :=
    if st.time > 0 then
      { st with sessions := st.sessions ++ [⟨nowMs, st.time, nowDate⟩] }
    else st
  { st1 with time := 0, isRunning := false }

/-- `handleReset`.  The confirmation dialog is requested only when there are
sessions or elapsed time; `confirm` models the user response. -/
def handleReset (confirm : Bool) (st : AppState) : AppState :=
  if (st.sessions ≠ [] ∨ st.time > 0) ∧ confirm = false then st
  else { st with time := 0, isRunning := false, sessions := [] }

/-- `calculateTotalTime`: `sessions.reduce((t, s) => t + s.duration, 0)`. -/
def calculateTotalTime (sessions : List Session) : Nat :=
  sessions.foldl (fun total session => total + session.duration) 0

/-!  ## ISO-8601 serialization (`toISOString` and `new Date(isoString)`) -/

/-- Two-digit zero-padded decimal rendering (for `n < 100`). -/
def pad2 (n : Nat) : List Char := [Nat.digitChar (n / 10), Nat.digitChar (n % 10)]

/-- Three-digit zero-padded decimal rendering (for `n < 1000`). -/
def pad3 (n : Nat) : List Char :=
  [Nat.digitChar (n / 100), Nat.digitChar (n / 10 % 10), Nat.digitChar (n % 10)]

/-- Four-digit zero-padded decimal rendering (for `n < 10000`). -/
def pad4 (n : Nat) : List Char :=
  [Nat.digitChar (n / 1000), Nat.digitChar (n / 100 % 10),
    Nat.digitChar (n / 10 % 10), Nat.digitChar (n % 10)]

/-- `Date.prototype.toISOString` for years in `0..9999` (the four-digit ISO
format `YYYY-MM-DDTHH:MM:SS.mmmZ`; the ISO month is 1-based). -/
def toISOString (d : JSDate) : String :=
  ⟨pad4 d.year.toNat ++ '-' :: pad2 (d.month + 1) ++ '-' :: pad2 d.day ++
    'T' :: pad2 d.hour ++ ':' :: pad2 d.minute ++ ':' :: pad2 d.second ++
    '.' :: pad3 d.ms ++ ['Z']⟩

/-- Decimal digit value of a character, if it is a digit. -/
def digitVal (c : Char) : Option Nat :=
  if '0' ≤ c ∧ c ≤ '9' then some (c.toNat - '0'.toNat) else none

/-- Parse two decimal digits. -/
def parse2 (c1 c2 : Char) : Option Nat := do
  pure ((← digitVal c1) * 10 + (← digitVal c2))

/-- Parse three decimal digits. -/
def parse3 (c1 c2 c3 : Char) : Option Nat := do
  pure (((← digitVal c1) * 10 + (← digitVal c2)) * 10 + (← digitVal c3))

/-- Parse four decimal digits. -/
def parse4 (c1 c2 c3 c4 : Char) : Option Nat := do
  pure ((((← digitVal c1) * 10 + (← digitVal c2)) * 10 + (← digitVal c3)) * 10
    + (← digitVal c4))

/-- Models `new Date(isoString)` on the millisecond-precision ISO format
written by `toISOString`; `none` models an `Invalid Date` result. -/
def parseISODate (s : String) : Option JSDate :=
  match s.data with
  | [y1, y2, y3, y4, q1, u1, u2, q2, d1, d2, q3, h1, h2, q4, i1, i2, q5,
      e1, e2, q6, x1, x2, x3, q7] =>
    if q1 = '-' ∧ q2 = '-' ∧ q3 = 'T' ∧ q4 = ':' ∧ q5 = ':' ∧ q6 = '.' ∧ q7 = 'Z' then do
      let y ← parse4 y1 y2 y3 y4
      let mo ← parse2 u1 u2
      let d ← parse2 d1 d2
      let h ← parse2 h1 h2
      let mi ← parse2 i1 i2
      let se ← parse2 e1 e2
      let mss ← parse3 x1 x2 x3
      if 1 ≤ mo ∧ mo ≤ 12 then some ⟨(y : Int), mo - 1, d, h, mi, se, mss⟩
      else none
    else none
  | _ => none

/-- Serialization of one session by `JSON.stringify` (dates become their
`toISOString`). -/
def serializeSession (s : Session) : WireSession :=
  ⟨s.id, s.duration, toISOString s.timestamp⟩

/-- Serialization of one saved set by `JSON.stringify`. -/
def serializeSet (x : SavedSessionSet) : WireSet :=
  ⟨x.id, x.name, x.sessions.map serializeSession, x.totalTime,
    toISOString x.createdAt⟩

/-- Serialization of the full collection: the persisted JSON value. -/
def serializeSets (l : List SavedSessionSet) : List WireSet := l.map serializeSet

/-- Date revival of one parsed session in `loadSavedSessions`:
`{...session, timestamp: new Date(session.timestamp)}`. -/
def parseSession (w : WireSession) : Option Session :=
  (parseISODate w.timestamp).map fun ts => ⟨w.id, w.duration, ts⟩

/-- Date revival of one parsed set in `loadSavedSessions`. -/
def parseSet (w : WireSet) : Option SavedSessionSet := do
  let ca ← parseISODate w.createdAt
  let ss ← w.sessions.mapM parseSession
  pure ⟨w.id, w.name, ss, w.totalTime, ca⟩

/-- The deserialization performed by `loadSavedSessions` on the persisted
JSON value (`JSON.parse` then date reconstruction). -/
def parseSets (l : List WireSet) : Option (List SavedSessionSet) :=
  l.mapM parseSet

/-!  ## Session set store (`saveSessionSet`, `deleteSavedSessionSet`) -/

/-- The `newSessionSet` object constructed by `saveSessionSet`:
`{id, name, sessions: [...sessions], totalTime: calculateTotalTime(), createdAt}`. -/
def mkSessionSet (id name : String) (createdAt : JSDate)
    (sessions : List Session) : SavedSessionSet :=
  ⟨id, name, sessions, calculateTotalTime sessions, createdAt⟩

/-- `saveSessionSet`.  `confirm` models the dialog answer, `writeOk` whether
the `Preferences.set` call succeeds, `nowId`/`name`/`createdAt` the values
drawn from the clock at save time. -/
def saveSessionSet (confirm writeOk : Bool) (nowId name : String)
    (createdAt : JSDate) (st : AppState) : AppState × OpResult :=
  if st.sessions = [] then (st, .validationNoOp)
  else if confirm = false then (st, .cancelled)
  else
    let newSet := mkSessionSet nowId name createdAt st.sessions
    let updatedSets := st.savedSessionSets ++ [newSet]
    if writeOk then
      ({ st with
          savedSessionSets := updatedSets
          sessions := []
          storage := some (serializeSets updatedSets) }, .success)
    else (st, .storageWriteError)

/-- `deleteSavedSessionSet`. -/
def deleteSavedSessionSet (confirm writeOk : Bool) (id : String)
    (st : AppState) : AppState × OpResult :=
  if st.savedSessionSets.all (fun x => x.id ≠ id) then (st, .validationNoOp)
  else if confirm = false then (st, .cancelled)
  else
    let updatedSets := st.savedSessionSets.filter (fun x => x.id ≠ id)
    if writeOk then
      ({ st with
          savedSessionSets := updatedSets
          storage := some (serializeSets updatedSets) }, .success)
    else (st, .storageWriteError)

/-!  ## Period aggregator (`generateSessionSummary`) -/

/-- The grouping key `{year}-{month}-{first|second}` of
`generateSessionSummary`. -/
structure PeriodKey where
  year : Int
  month : Nat
  firstHalf : Bool
deriving DecidableEq, Repr

/-- The key of a saved set: year, 0-indexed month, and day ≤ 15 of its
`createdAt`. -/
def periodKeyOf (d : JSDate) : PeriodKey := ⟨d.year, d.month, d.day ≤ 15⟩

/-- The `startDate` of the period for a key: `new Date(year, month, 1)` for
the first half, `new Date(year, month, 16)` for the second. -/
def periodStart (k : PeriodKey) : JSDate :=
  if k.firstHalf then dateAtMidnight k.year k.month 1
  else dateAtMidnight k.year k.month 16

/-- The `endDate` of the period for a key: day 15 at 23:59:59.999 for the
first half, `new Date(year, month + 1, 0, 23, 59, 59, 999)` for the second. -/
def periodEnd (k : PeriodKey) : JSDate :=
  if k.firstHalf then dateAtEndOfDay k.year k.month 15
  else dateAtEndOfDay k.year (k.month + 1) 0

/-- The fresh period placed in the map when a key is first seen. -/
def emptyPeriod (k : PeriodKey) : SessionSummaryPeriod :=
  ⟨periodStart k, periodEnd k, [], 0, 0⟩

/-- The three mutations performed on the period of the key of a set:
`sessions.push`, `totalTime +=`, `sessionCount +=`. -/
def pushSet (s : SavedSessionSet) (p : SessionSummaryPeriod) :
    SessionSummaryPeriod :=
  { p with
    sessions := p.sessions ++ [s]
    totalTime := p.totalTime + s.totalTime
    sessionCount := p.sessionCount + s.sessions.length }

/-- One iteration of the `forEach` of `generateSessionSummary` on the
insertion-ordered map (association list), inserting an empty period if the
key is absent and then mutating the period of the key. -/
def addSetToPeriods (acc : List (PeriodKey × SessionSummaryPeriod))
    (s : SavedSessionSet) : List (PeriodKey × SessionSummaryPeriod) :=
  let k := periodKeyOf s.createdAt
  if acc.any (fun e => e.1 = k) then
    acc.map (fun e => if e.1 = k then (e.1, pushSet s e.2) else e)
  else acc ++ [(k, pushSet s (emptyPeriod k))]

/-- Order into which `Array.from(map.values()).sort((a, b) =>
b.startDate.getTime() - a.startDate.getTime())` places two periods. -/
def summaryLe (p q : SessionSummaryPeriod) : Prop :=
  leDate q.startDate p.startDate = true

instance : DecidableRel summaryLe := fun _ _ =>
  inferInstanceAs (Decidable (_ = true))

/-- `generateSessionSummary`: group the saved sets by period key in a map
preserving insertion order, then sort the periods by `startDate`
descending.  The JS `sort` contract (a stable sort by the comparator) is
modelled by a stable sort. -/
def generateSessionSummary (savedSessionSets : List SavedSessionSet) :
    List SessionSummaryPeriod :=
  if savedSessionSets.isEmpty then []
  else
    ((savedSessionSets.foldl addSetToPeriods []).map Prod.snd).insertionSort
      summaryLe

/-!  ## Daily breakdown deriver (the histogram data of `copyHistogramReport`) -/

/-- A key of the `dailyData` map: `date.toISOString().split('T')[0]`, the
string `YYYY-MM-DD`, represented by (year, 0-indexed month, day).  In the
UTC model these are the stored civil fields; for four-digit years
`localeCompare` on the padded strings is lexicographic comparison of the
triples. -/
def isoDayKey (d : JSDate) : Int × Nat × Nat := (d.year, d.month, d.day)

/-- Comparison of two day keys, as `a[0].localeCompare(b[0]) <= 0`. -/
def dayKeyLe (a b : Int × Nat × Nat) : Bool :=
  lexLe [a.1, (a.2.1 : Int), (a.2.2 : Int)] [b.1, (b.2.1 : Int), (b.2.2 : Int)]

/-- Order of the daily entries under `sort((a, b) => a[0].localeCompare(b[0]))`. -/
def entryLe (a b : (Int × Nat × Nat) × Nat) : Prop := dayKeyLe a.1 b.1 = true

instance : DecidableRel entryLe := fun _ _ =>
  inferInstanceAs (Decidable (_ = true))

/-- A linearization of dates that grows by at least one per calendar day;
used to bound the number of iterations of the day loop. -/
def linearDay (d : JSDate) : Int := d.year * 372 + (d.month : Int) * 31 + d.day

/-- The loop `for (date = new Date(startDate); date <= endDate;
date.setDate(date.getDate() + 1))`, collecting one day key per iteration.
The structural bound is consumed one step per iteration; `dayIter` below
supplies a bound that is provably sufficient, so the cutoff is never hit. -/
def dayIterFuel : Nat → JSDate → JSDate → List (Int × Nat × Nat)
  | 0, _, _ => []
  | fuel + 1, cur, endD =>
    if leDate cur endD then isoDayKey cur :: dayIterFuel fuel (nextDayDate cur) endD
    else []

/-- The day-key initialization loop of `copyHistogramReport`. -/
def dayIter (startD endD : JSDate) : List (Int × Nat × Nat) :=
  dayIterFuel (linearDay endD + 1 - linearDay startD).toNat startD endD

/-- `dailyData` after initialization: a zero for every day from `startDate`
to `endDate` inclusive, in insertion order. -/
def initDaily (p : SessionSummaryPeriod) : List ((Int × Nat × Nat) × Nat) :=
  (dayIter p.startDate p.endDate).map (fun k => (k, 0))

/-- `dailyData.set(sessionDate, (dailyData.get(sessionDate) || 0) +
session.duration)`: a `Map.set` updates an existing key in place and
appends an absent key at the end. -/
def bumpKey (data : List ((Int × Nat × Nat) × Nat)) (k : Int × Nat × Nat)
    (dur : Nat) : List ((Int × Nat × Nat) × Nat) :=
  if data.any (fun e => e.1 = k) then
    data.map (fun e => if e.1 = k then (e.1, e.2 + dur) else e)
  else data ++ [(k, dur)]

/-- The aggregation loops of `copyHistogramReport`: every session of every
set of the period adds its duration under the day key of its timestamp. -/
def aggregateDaily (p : SessionSummaryPeriod) : List ((Int × Nat × Nat) × Nat) :=
  p.sessions.foldl
    (fun data sessionSet =>
      sessionSet.sessions.foldl
        (fun data s => bumpKey data (isoDayKey s.timestamp) s.duration) data)
    (initDaily p)

/-- `dailyArray`: the aggregated entries sorted by day key ascending. -/
def dailyArray (p : SessionSummaryPeriod) : List ((Int × Nat × Nat) × Nat) :=
  (aggregateDaily p).insertionSort entryLe

/-!  ## Lexicographic order lemmas -/

theorem lexLe_refl : ∀ xs : List Int, lexLe xs xs = true
  | [] => rfl
  | x :: xs => by simp [lexLe, lexLe_refl xs]

theorem lexLe_total : ∀ xs ys : List Int, lexLe xs ys = true ∨ lexLe ys xs = true
  | [], _ => Or.inl rfl
  | _ :: _, [] => Or.inl rfl
  | x :: xs, y :: ys => by
    rcases eq_or_ne x y with rfl | h
    · simpa [lexLe] using lexLe_total xs ys
    · rcases h.lt_or_lt with hlt | hlt
      · exact Or.inl (by simp [lexLe, h, hlt])
      · exact Or.inr (by simp [lexLe, h.symm, hlt])

theorem lexLe_trans : ∀ (xs ys zs : List Int), xs.length = ys.length →
    ys.length = zs.length → lexLe xs ys = true → lexLe ys zs = true →
    lexLe xs zs = true := by
  intro xs
  induction xs with
  | nil => exact fun _ _ _ _ _ _ => rfl
  | cons x xs ih =>
    intro ys zs h1 h2 hxy hyz
    cases ys with
    | nil => simp at h1
    | cons y ys =>
      cases zs with
      | nil => simp at h2
      | cons z zs =>
        simp only [lexLe] at hxy hyz ⊢
        simp only [List.length_cons, Nat.add_right_cancel_iff] at h1 h2
        rcases eq_or_ne x y with rfl | hne1
        · rcases eq_or_ne x z with rfl | hne2
          · simp only [ne_eq, not_true_eq_false, if_neg] at hxy hyz ⊢
            simp only [if_neg (fun h : ¬(x = x) => h rfl)] at *
            exact ih ys zs h1 h2 (by simpa using hxy) (by simpa using hyz)
          · simp only [ne_eq, hne2, not_false_eq_true, if_pos, if_neg] at hyz ⊢
            simpa using hyz
        · rcases eq_or_ne y z with rfl | hne3
          · simp only [ne_eq, hne1, not_false_eq_true, if_pos] at hxy ⊢
            exact hxy
          · simp only [ne_eq, hne1, hne3, not_false_eq_true, if_pos] at hxy hyz
            have hx : x < y := by simpa using hxy
            have hy : y < z := by simpa using hyz
            have hxz : x ≠ z := by omega
            simp only [ne_eq, hxz, not_false_eq_true, if_pos,
              decide_eq_true_eq]
            omega

instance : IsTotal SessionSummaryPeriod summaryLe :=
  ⟨fun p q => lexLe_total (dateFields q.startDate) (dateFields p.startDate)⟩

instance : IsTrans SessionSummaryPeriod summaryLe :=
  ⟨fun a b c hab hbc =>
    lexLe_trans (dateFields c.startDate) (dateFields b.startDate)
      (dateFields a.startDate) rfl rfl hbc hab⟩

instance : IsTotal ((Int × Nat × Nat) × Nat) entryLe :=
  ⟨fun _ _ => lexLe_total _ _⟩

instance : IsTrans ((Int × Nat × Nat) × Nat) entryLe :=
  ⟨fun a b c hab hbc => by
    unfold entryLe dayKeyLe at hab hbc ⊢
    exact lexLe_trans _ _ _ (by simp) (by simp) hab hbc⟩

/-!  ## Calendar facts -/

theorem daysInMonth_ge (y : Int) (m : Nat) : 28 ≤ daysInMonth y m := by
  unfold daysInMonth
  split_ifs <;> omega

theorem daysInMonth_le (y : Int) (m : Nat) : daysInMonth y m ≤ 31 := by
  unfold daysInMonth
  split_ifs <;> omega

theorem normYMD_self (y : Int) (m d : Nat) (hm : m < 12) (h1 : 1 ≤ d)
    (h2 : d ≤ daysInMonth y m) : normYMD y m d = (y, m, d) := by
  unfold normYMD
  have hdiv : m / 12 = 0 := Nat.div_eq_of_lt hm
  have hmod : m % 12 = m := Nat.mod_eq_of_lt hm
  simp only [hdiv, hmod, Nat.cast_zero, add_zero]
  rw [if_neg (by omega), if_pos h2]

theorem periodStart_eq {k : PeriodKey} (hm : k.month < 12) :
    periodStart k =
      ⟨k.year, k.month, if k.firstHalf then 1 else 16, 0, 0, 0, 0⟩ := by
  have h28 := daysInMonth_ge k.year k.month
  cases hf : k.firstHalf <;>
    simp [periodStart, dateAtMidnight, hf,
      normYMD_self k.year k.month 1 hm (by omega) (by omega),
      normYMD_self k.year k.month 16 hm (by omega) (by omega)]

theorem periodEnd_eq {k : PeriodKey} (hm : k.month < 12) :
    periodEnd k =
      ⟨k.year, k.month,
        if k.firstHalf then 15 else daysInMonth k.year k.month,
        23, 59, 59, 999⟩ := by
  have h28 := daysInMonth_ge k.year k.month
  cases hf : k.firstHalf
  · have h1 : k.month + 1 ≤ 12 := by omega
    rcases eq_or_lt_of_le h1 with h12 | hlt
    · have hm11 : k.month = 11 := by omega
      simp [periodEnd, dateAtEndOfDay, hf, normYMD, hm11]
    · have hdiv : (k.month + 1) / 12 = 0 := Nat.div_eq_of_lt hlt
      have hmod : (k.month + 1) % 12 = k.month + 1 := Nat.mod_eq_of_lt hlt
      simp [periodEnd, dateAtEndOfDay, hf, normYMD, hdiv, hmod]
  · simp [periodEnd, dateAtEndOfDay, hf,
      normYMD_self k.year k.month 15 hm (by omega) (by omega)]

theorem periodStart_inj {k₁ k₂ : PeriodKey} (h1 : k₁.month < 12)
    (h2 : k₂.month < 12) (h : periodStart k₁ = periodStart k₂) : k₁ = k₂ := by
  rw [periodStart_eq h1, periodStart_eq h2] at h
  simp only [JSDate.mk.injEq] at h
  obtain ⟨hy, hmo, hd, -⟩ := h
  cases k₁ with
  | mk y1 m1 f1 =>
    cases k₂ with
    | mk y2 m2 f2 =>
      simp only at hy hmo hd
      cases f1 <;> cases f2 <;> simp_all

/-!  ## Aggregator fold invariants -/

/-- The saved sets currently distributed over the buckets, in bucket order. -/
def joined (acc : List (PeriodKey × SessionSummaryPeriod)) :
    List SavedSessionSet :=
  (acc.map (fun e => e.2.sessions)).flatten

/-- Invariant of the insertion-ordered period map built by the `forEach` of
`generateSessionSummary`. -/
def BucketInv (acc : List (PeriodKey × SessionSummaryPeriod)) : Prop :=
  (acc.map Prod.fst).Nodup ∧
  ∀ e ∈ acc,
    e.2.startDate = periodStart e.1 ∧
    e.2.endDate = periodEnd e.1 ∧
    e.2.sessions ≠ [] ∧
    (∀ s ∈ e.2.sessions, periodKeyOf s.createdAt = e.1) ∧
    e.2.totalTime = (e.2.sessions.map SavedSessionSet.totalTime).sum ∧
    e.2.sessionCount = (e.2.sessions.map (fun x => x.sessions.length)).sum

theorem map_update_of_not_mem {k : PeriodKey} {s : SavedSessionSet} :
    ∀ {acc : List (PeriodKey × SessionSummaryPeriod)},
    k ∉ acc.map Prod.fst →
    acc.map (fun e => if e.1 = k then (e.1, pushSet s e.2) else e) = acc := by
  intro acc
  induction acc with
  | nil => intro _; rfl
  | cons e acc ih =>
    intro h
    simp only [List.map_cons, List.mem_cons, not_or] at h
    simp only [List.map_cons, if_neg (fun hh : e.1 = k => h.1 hh.symm), ih h.2]

theorem joined_update {k : PeriodKey} {s : SavedSessionSet} :
    ∀ {acc : List (PeriodKey × SessionSummaryPeriod)},
    (acc.map Prod.fst).Nodup → k ∈ acc.map Prod.fst →
    joined (acc.map (fun e => if e.1 = k then (e.1, pushSet s e.2) else e)) ~
      joined acc ++ [s] := by
  intro acc
  induction acc with
  | nil => intro _ h; simp at h
  | cons e acc ih =>
    intro hnd hmem
    simp only [List.map_cons, List.nodup_cons] at hnd
    rcases List.mem_cons.mp hmem with heq | htail
    · subst heq
      have hnot : e.1 ∉ acc.map Prod.fst := hnd.1
      simp only [List.map_cons, if_pos rfl, map_update_of_not_mem hnot]
      simp only [joined, List.map_cons, List.flatten_cons, pushSet]
      calc (e.2.sessions ++ [s]) ++ (acc.map (fun x => x.2.sessions)).flatten
          = e.2.sessions ++ ([s] ++ (acc.map (fun x => x.2.sessions)).flatten) := by
            simp [List.append_assoc]
        _ ~ e.2.sessions ++ ((acc.map (fun x => x.2.sessions)).flatten ++ [s]) :=
            List.Perm.append_left _ (List.perm_append_comm)
        _ = (e.2.sessions ++ (acc.map (fun x => x.2.sessions)).flatten) ++ [s] := by
            simp [List.append_assoc]
    · have hke : e.1 ≠ k := fun hk => hnd.1 (hk ▸ htail)
      simp only [List.map_cons, if_neg hke]
      simp only [joined, List.map_cons, List.flatten_cons]
      have := ih hnd.2 htail
      calc e.2.sessions ++ joined (acc.map (fun e =>
              if e.1 = k then (e.1, pushSet s e.2) else e))
          ~ e.2.sessions ++ (joined acc ++ [s]) := List.Perm.append_left _ this
        _ = (e.2.sessions ++ joined acc) ++ [s] := by simp [List.append_assoc]

theorem keys_update {k : PeriodKey} {s : SavedSessionSet}
    (acc : List (PeriodKey × SessionSummaryPeriod)) :
    (acc.map (fun e => if e.1 = k then (e.1, pushSet s e.2) else e)).map
      Prod.fst = acc.map Prod.fst := by
  induction acc with
  | nil => rfl
  | cons e acc ih =>
    by_cases h : e.1 = k <;> simp [h, ih]

theorem bucketInv_addSet {acc : List (PeriodKey × SessionSummaryPeriod)}
    (hinv : BucketInv acc) (s : SavedSessionSet) :
    BucketInv (addSetToPeriods acc s) := by
  obtain ⟨hnd, hprops⟩ := hinv
  unfold addSetToPeriods
  by_cases hmem : acc.any (fun e => e.1 = periodKeyOf s.createdAt)
  · rw [if_pos hmem]
    constructor
    · rw [keys_update]; exact hnd
    · intro e he
      rcases List.mem_map.mp he with ⟨e0, he0, heq⟩
      by_cases hk : e0.1 = periodKeyOf s.createdAt
      · rw [if_pos hk] at heq
        obtain ⟨h1, h2, h3, h4, h5, h6⟩ := hprops e0 he0
        subst heq
        refine ⟨by simpa [pushSet] using h1, by simpa [pushSet] using h2,
          by simp [pushSet], ?_, by simp [pushSet, h5], by simp [pushSet, h6]⟩
        intro x hx
        simp only [pushSet] at hx
        rcases List.mem_append.mp hx with hx | hx
        · exact h4 x hx
        · simp only [List.mem_singleton] at hx
          subst hx; exact hk.symm
      · rw [if_neg hk] at heq
        subst heq
        exact hprops e0 he0
  · rw [if_neg hmem]
    have hknot : periodKeyOf s.createdAt ∉ acc.map Prod.fst := by
      intro hk
      rcases List.mem_map.mp hk with ⟨e, he, heq⟩
      exact hmem (List.any_eq_true.mpr ⟨e, he, by simp [heq]⟩)
    constructor
    · simp only [List.map_append, List.map_cons, List.map_nil]
      exact hnd.append (List.nodup_singleton _)
        (by intro x hx hmemx; simp at hmemx; subst hmemx; exact hknot hx)
    · intro e he
      rcases List.mem_append.mp he with he | he
      · exact hprops e he
      · simp only [List.mem_singleton] at he
        subst he
        refine ⟨by simp [pushSet, emptyPeriod], by simp [pushSet, emptyPeriod],
          by simp [pushSet, emptyPeriod], ?_, by simp [pushSet, emptyPeriod],
          by simp [pushSet, emptyPeriod]⟩
        intro x hx
        simp only [pushSet, emptyPeriod, List.nil_append,
          List.mem_singleton] at hx
        subst hx; rfl

theorem joined_addSet {acc : List (PeriodKey × SessionSummaryPeriod)}
    (hnd : (acc.map Prod.fst).Nodup) (s : SavedSessionSet) :
    joined (addSetToPeriods acc s) ~ joined acc ++ [s] := by
  unfold addSetToPeriods
  by_cases hmem : acc.any (fun e => e.1 = periodKeyOf s.createdAt)
  · rw [if_pos hmem]
    have : periodKeyOf s.createdAt ∈ acc.map Prod.fst := by
      rcases List.any_eq_true.mp hmem with ⟨e, he, heq⟩
      exact List.mem_map.mpr ⟨e, he, by simpa using heq⟩
    exact joined_update hnd this
  · rw [if_neg hmem]
    simp [joined, pushSet, emptyPeriod]

theorem bucketInv_foldl :
    ∀ (sets : List SavedSessionSet) (acc : List (PeriodKey × SessionSummaryPeriod)),
    BucketInv acc →
    BucketInv (sets.foldl addSetToPeriods acc) ∧
      (joined (sets.foldl addSetToPeriods acc) ~ joined acc ++ sets) := by
  intro sets
  induction sets with
  | nil => intro acc h; exact ⟨h, by simp⟩
  | cons s sets ih =>
    intro acc h
    have hadd := bucketInv_addSet h s
    obtain ⟨hinv, hperm⟩ := ih (addSetToPeriods acc s) hadd
    refine ⟨hinv, ?_⟩
    calc joined ((s :: sets).foldl addSetToPeriods acc)
        = joined (sets.foldl addSetToPeriods (addSetToPeriods acc s)) := rfl
      _ ~ joined (addSetToPeriods acc s) ++ sets := hperm
      _ ~ (joined acc ++ [s]) ++ sets :=
          (joined_addSet h.1 s).append_right sets
      _ = joined acc ++ (s :: sets) := by simp

theorem bucketInv_nil : BucketInv [] :=
  ⟨List.nodup_nil, fun e he => absurd he (List.not_mem_nil e)⟩

theorem mem_summary_exists {sets : List SavedSessionSet}
    {p : SessionSummaryPeriod} (hp : p ∈ generateSessionSummary sets) :
    ∃ e ∈ sets.foldl addSetToPeriods [], e.2 = p := by
  unfold generateSessionSummary at hp
  by_cases h : sets.isEmpty
  · rw [if_pos h] at hp
    cases hp
  · rw [if_neg h] at hp
    rw [List.mem_insertionSort] at hp
    rcases List.mem_map.mp hp with ⟨e, he, heq⟩
    exact ⟨e, he, heq⟩

theorem summary_sessions_perm (sets : List SavedSessionSet) :
    ((generateSessionSummary sets).map (fun p => p.sessions)).flatten ~ sets := by
  by_cases h : sets.isEmpty
  · have hnil : sets = [] := List.isEmpty_iff.mp h
    subst hnil
    simp [generateSessionSummary]
  · unfold generateSessionSummary
    rw [if_neg h]
    obtain ⟨hinv, hperm⟩ := bucketInv_foldl sets [] bucketInv_nil
    have hj : joined (sets.foldl addSetToPeriods []) ~ sets := by
      simpa [joined] using hperm
    have p1 := (List.perm_insertionSort summaryLe
      ((sets.foldl addSetToPeriods []).map Prod.snd)).map
      (fun p : SessionSummaryPeriod => p.sessions)
    have p2 := p1.flatten
    refine p2.trans ?_
    rw [List.map_map]
    exact hj

theorem summary_totalTime_sum (sets : List SavedSessionSet) :
    ((generateSessionSummary sets).map SessionSummaryPeriod.totalTime).sum =
      (sets.map SavedSessionSet.totalTime).sum := by
  by_cases h : sets.isEmpty
  · have hnil : sets = [] := List.isEmpty_iff.mp h
    subst hnil
    simp [generateSessionSummary]
  · unfold generateSessionSummary
    rw [if_neg h]
    obtain ⟨hinv, hperm⟩ := bucketInv_foldl sets [] bucketInv_nil
    have hj : joined (sets.foldl addSetToPeriods []) ~ sets := by
      simpa [joined] using hperm
    have p1 := (List.perm_insertionSort summaryLe
      ((sets.foldl addSetToPeriods []).map Prod.snd)).map
      SessionSummaryPeriod.totalTime
    rw [p1.sum_eq, List.map_map]
    have e2 : (sets.foldl addSetToPeriods []).map
        (SessionSummaryPeriod.totalTime ∘ Prod.snd) =
        (sets.foldl addSetToPeriods []).map
          (fun e => (e.2.sessions.map SavedSessionSet.totalTime).sum) :=
      List.map_congr_left (fun e he => (hinv.2 e he).2.2.2.2.1)
    rw [e2]
    have e3 : (sets.foldl addSetToPeriods []).map
        (fun e => (e.2.sessions.map SavedSessionSet.totalTime).sum) =
        ((sets.foldl addSetToPeriods []).map
          (fun e => e.2.sessions.map SavedSessionSet.totalTime)).map List.sum := by
      rw [List.map_map]; rfl
    have e4 : ((sets.foldl addSetToPeriods []).map
        (fun e => e.2.sessions.map SavedSessionSet.totalTime)) =
        (((sets.foldl addSetToPeriods []).map (fun e => e.2.sessions)).map
          (List.map SavedSessionSet.totalTime)) := by
      rw [List.map_map]; rfl
    rw [e3, e4, ← List.sum_flatten, ← List.map_flatten]
    exact (hj.map SavedSessionSet.totalTime).sum_eq

theorem summary_bucket_dates {sets : List SavedSessionSet}
    {p : SessionSummaryPeriod} (hp : p ∈ generateSessionSummary sets) :
    ∀ s ∈ p.sessions,
      p.startDate = periodStart (periodKeyOf s.createdAt) ∧
      p.endDate = periodEnd (periodKeyOf s.createdAt) := by
  obtain ⟨e, he, heq⟩ := mem_summary_exists hp
  obtain ⟨hinv, -⟩ := bucketInv_foldl sets [] bucketInv_nil
  obtain ⟨h1, h2, -, h4, -⟩ := hinv.2 e he
  intro s hs
  rw [← heq] at hs ⊢
  rw [h4 s hs]
  exact ⟨h1, h2⟩

theorem summary_startDate_nodup {sets : List SavedSessionSet}
    (hval : ∀ s ∈ sets, s.createdAt.month < 12) :
    ((generateSessionSummary sets).map (fun p => p.startDate)).Nodup := by
  by_cases h : sets.isEmpty
  · have hnil : sets = [] := List.isEmpty_iff.mp h
    subst hnil
    simp [generateSessionSummary]
  · obtain ⟨hinv, hperm⟩ := bucketInv_foldl sets [] bucketInv_nil
    have hj : joined (sets.foldl addSetToPeriods []) ~ sets := by
      simpa [joined] using hperm
    set B := sets.foldl addSetToPeriods [] with hB
    have hmon : ∀ e ∈ B, e.1.month < 12 := by
      intro e he
      obtain ⟨-, -, hne, hkey, -⟩ := hinv.2 e he
      obtain ⟨s, hs⟩ := List.exists_mem_of_ne_nil _ hne
      have hsj : s ∈ joined B := by
        unfold joined
        exact List.mem_flatten.mpr ⟨e.2.sessions,
          List.mem_map.mpr ⟨e, he, rfl⟩, hs⟩
      have hss : s ∈ sets := hj.mem_iff.mp hsj
      have := hval s hss
      rw [← hkey s hs]
      exact this
    have hBnodup : B.Nodup := hinv.1.of_map
    have hBmap : (B.map (fun e => e.2.startDate)).Nodup := by
      have heq : B.map (fun e => e.2.startDate) =
          B.map (fun e => periodStart e.1) :=
        List.map_congr_left (fun e he => (hinv.2 e he).1)
      rw [heq]
      refine hBnodup.map_on ?_
      intro x hx y hy hf
      have hkxy : x.1 = y.1 := periodStart_inj (hmon x hx) (hmon y hy) hf
      exact List.inj_on_of_nodup_map hinv.1 hx hy hkxy
    unfold generateSessionSummary
    rw [if_neg h]
    have hpm := (List.perm_insertionSort summaryLe (B.map Prod.snd)).map
      (fun p : SessionSummaryPeriod => p.startDate)
    refine hpm.nodup_iff.mpr ?_
    rw [List.map_map]
    exact hBmap

/-- C1: `generateSessionSummary` assigns each `SavedSessionSet` to exactly
one period bucket determined solely by the year, month and half-month of
its `createdAt` (the multiset of sets distributed over the periods is
exactly the input collection, and each member sits in the bucket of its own
key), and the sum of `totalTime` over the returned periods equals the sum
of `totalTime` over the collection. -/
theorem C1_summarize_partition (sets : List SavedSessionSet) :
    (((generateSessionSummary sets).map (fun p => p.sessions)).flatten ~ sets) ∧
    ((generateSessionSummary sets).map SessionSummaryPeriod.totalTime).sum =
      (sets.map SavedSessionSet.totalTime).sum ∧
    ∀ p ∈ generateSessionSummary sets, ∀ s ∈ p.sessions,
      p.startDate = periodStart (periodKeyOf s.createdAt) ∧
      p.endDate = periodEnd (periodKeyOf s.createdAt) :=
  ⟨summary_sessions_perm sets, summary_totalTime_sum sets,
    fun _ hp => summary_bucket_dates hp⟩

/-- Example data used by concrete witnesses. -/
def exSession : Session := ⟨1, 1500, ⟨2024, 0, 10, 9, 0, 0, 0⟩⟩

/-- Example saved set created on January 10, 2024. -/
def exSet : SavedSessionSet := ⟨"a", "Session A", [exSession], 1500,
  ⟨2024, 0, 10, 10, 0, 0, 0⟩⟩

/-- The period produced for `exSet` (first half of January 2024). -/
def exPeriod : SessionSummaryPeriod :=
  ⟨⟨2024, 0, 1, 0, 0, 0, 0⟩, ⟨2024, 0, 15, 23, 59, 59, 999⟩, [exSet], 1500, 1⟩

/-- Witness for C1: the bucket-assignment part evaluated on a concrete
collection, with its membership hypotheses discharged by evaluation. -/
theorem C1_witness :
    exPeriod ∈ generateSessionSummary [exSet] ∧
    exSet ∈ exPeriod.sessions ∧
    exPeriod.startDate = periodStart (periodKeyOf exSet.createdAt) ∧
    exPeriod.endDate = periodEnd (periodKeyOf exSet.createdAt) :=
  ⟨by decide, by decide,
    (C1_summarize_partition [exSet]).2.2 exPeriod (by decide) exSet (by decide)⟩

/-- C8: the periods returned by `generateSessionSummary` are sorted by
`startDate` descending: for every adjacent pair, the startDate of the
later-listed period is strictly below the startDate of the earlier-listed
one.  (The hypothesis states that the stored dates are normalized, which is
always true of real JS `Date` values.) -/
theorem C8_summary_sorted_descending (sets : List SavedSessionSet)
    (hval : ∀ s ∈ sets, s.createdAt.month < 12) :
    (generateSessionSummary sets).Chain'
      (fun p q => ltDate q.startDate p.startDate) := by
  have hnd := summary_startDate_nodup hval
  have hsorted : (generateSessionSummary sets).Pairwise summaryLe := by
    unfold generateSessionSummary
    by_cases h : sets.isEmpty
    · rw [if_pos h]; exact List.Pairwise.nil
    · rw [if_neg h]
      exact List.sorted_insertionSort summaryLe _
  have hne : (generateSessionSummary sets).Pairwise
      (fun p q : SessionSummaryPeriod => p.startDate ≠ q.startDate) := by
    simp only [List.Nodup] at hnd
    rw [List.pairwise_map] at hnd
    exact hnd
  exact ((hsorted.and hne).imp
    (fun hpq => ⟨hpq.1, hpq.2.symm⟩)).chain'

/-- A second example saved set, created on January 20, 2024 (second half). -/
def exSet2 : SavedSessionSet := ⟨"b", "Session B",
  [⟨2, 2500, ⟨2024, 0, 20, 9, 0, 0, 0⟩⟩], 2500, ⟨2024, 0, 20, 10, 0, 0, 0⟩⟩

/-- Witness for C8 at a concrete two-period collection. -/
theorem C8_witness :
    (∀ s ∈ [exSet, exSet2], s.createdAt.month < 12) ∧
    (generateSessionSummary [exSet, exSet2]).Chain'
      (fun p q => ltDate q.startDate p.startDate) :=
  ⟨by decide, C8_summary_sorted_descending [exSet, exSet2] (by decide)⟩

/-- C10: the summary of the empty collection is empty, and every period
returned for any collection contains at least one saved set. -/
theorem C10_summary_empty_and_nonempty_buckets :
    generateSessionSummary [] = [] ∧
    ∀ (sets : List SavedSessionSet), ∀ p ∈ generateSessionSummary sets,
      p.sessions ≠ [] := by
  refine ⟨rfl, ?_⟩
  intro sets p hp
  obtain ⟨e, he, heq⟩ := mem_summary_exists hp
  obtain ⟨hinv, -⟩ := bucketInv_foldl sets [] bucketInv_nil
  obtain ⟨-, -, hne, -⟩ := hinv.2 e he
  rw [← heq]
  exact hne

/-- Witness for C10 at a concrete collection and period. -/
theorem C10_witness :
    exPeriod ∈ generateSessionSummary [exSet] ∧ exPeriod.sessions ≠ [] :=
  ⟨by decide,
    C10_summary_empty_and_nonempty_buckets.2 [exSet] exPeriod (by decide)⟩

/-!  ## Clock and recorder claims -/

/-- A running stopwatch with 50 ms on the clock. -/
def exRunningState : AppState := ⟨50, true, [], [], none⟩

/-- Counterexample to C3 as stated: `handleStop` does not leave the elapsed
value frozen at `e`; it executes `setTime(0)`, so stopping at 50 ms leaves
the elapsed value 0, not 50.  (The 50 ms become the duration of the recorded
session instead.) -/
theorem C3_counterexample :
    exRunningState.time = 50 ∧
    (handleStop 0 ⟨2024, 0, 10, 9, 0, 0, 0⟩ exRunningState).time ≠ 50 ∧
    (handleStop 0 ⟨2024, 0, 10, 9, 0, 0, 0⟩ exRunningState).time = 0 := by
  decide

/-- C3 (amended): the stop operation halts accumulation (`isRunning` becomes
false and a subsequent tick leaves the state unchanged) but sets the elapsed
value to 0 rather than freezing it at `e` (when `e > 0` it is recorded as
the duration of a new session); reset likewise sets the elapsed value to 0,
halts, and clears the batch. -/
theorem C3_stop_zeroes_elapsed (nowMs : Int) (nowDate : JSDate)
    (st : AppState) :
    (handleStop nowMs nowDate st).time = 0 ∧
    (handleStop nowMs nowDate st).isRunning = false ∧
    tick (handleStop nowMs nowDate st) = handleStop nowMs nowDate st ∧
    (handleReset true st).time = 0 ∧
    (handleReset true st).isRunning = false ∧
    (handleReset true st).sessions = [] := by
  unfold handleStop handleReset tick
  split_ifs <;> simp_all

/-- C5: stopping with elapsed value 0 never appends a session (the batch is
returned unchanged), and a session is appended exactly when the elapsed
value is positive. -/
theorem C5_zero_stop_appends_nothing (nowMs : Int) (nowDate : JSDate)
    (st : AppState) :
    (st.time = 0 → (handleStop nowMs nowDate st).sessions = st.sessions) ∧
    (handleStop nowMs nowDate st).sessions =
      (if 0 < st.time then st.sessions ++ [⟨nowMs, st.time, nowDate⟩]
       else st.sessions) ∧
    ((handleStop nowMs nowDate st).sessions.length = st.sessions.length ↔
      st.time = 0) := by
  unfold handleStop
  by_cases h : 0 < st.time <;> simp_all
  omega

/-- An idle stopwatch holding one recorded session and no elapsed time. -/
def exIdleState : AppState := ⟨0, false, [exSession], [], none⟩

/-- Witness for C5: stopping at elapsed value 0 leaves the concrete batch
unchanged. -/
theorem C5_witness :
    (handleStop 5 ⟨2024, 0, 10, 9, 30, 0, 0⟩ exIdleState).sessions =
      exIdleState.sessions :=
  (C5_zero_stop_appends_nothing 5 ⟨2024, 0, 10, 9, 30, 0, 0⟩ exIdleState).1 rfl

/-!  ## Store claims -/

/-- C6: when the persistence write fails during a save of a non-empty,
confirmed batch, the operation is atomic: the whole state (in-memory
collection, current batch, persisted value) is left unchanged and
`StorageWriteError` is signaled to the caller. -/
theorem C6_save_failure_rolls_back (nowId name : String) (createdAt : JSDate)
    (st : AppState) (h : st.sessions ≠ []) :
    saveSessionSet true false nowId name createdAt st =
      (st, .storageWriteError) := by
  unfold saveSessionSet
  rw [if_neg h, if_neg (by simp)]
  simp

/-- Witness for C6: a failing write on a concrete state leaves it intact. -/
theorem C6_witness :
    exIdleState.sessions ≠ [] ∧
    saveSessionSet true false "1" "Session" ⟨2024, 0, 10, 9, 31, 0, 0⟩
      exIdleState = (exIdleState, .storageWriteError) :=
  ⟨by decide,
    C6_save_failure_rolls_back "1" "Session" ⟨2024, 0, 10, 9, 31, 0, 0⟩
      exIdleState (by decide)⟩

/-- Two distinct saved sets sharing the id `"7"`. -/
def dupSetA : SavedSessionSet := ⟨"7", "A", [], 0, ⟨2024, 0, 10, 9, 0, 0, 0⟩⟩

/-- The second set with the duplicated id. -/
def dupSetB : SavedSessionSet := ⟨"7", "B", [], 0, ⟨2024, 0, 11, 9, 0, 0, 0⟩⟩

/-- A state whose collection holds two sets with the same id. -/
def dupState : AppState := ⟨0, false, [], [dupSetA, dupSetB], none⟩

/-- Counterexample to C7 as stated: on a collection holding two sets with
the same id, `deleteSavedSessionSet` removes both (it filters on the id),
not exactly one. -/
theorem C7_counterexample :
    dupState.savedSessionSets.length = 2 ∧
    (∃ x ∈ dupState.savedSessionSets, x.id = "7") ∧
    (deleteSavedSessionSet true true "7" dupState).1.savedSessionSets = [] := by
  decide

theorem filter_ne_eq_erase (id : String) :
    ∀ (l : List SavedSessionSet), (l.map SavedSessionSet.id).Nodup →
    ∀ x ∈ l, x.id = id →
    l.filter (fun y => y.id ≠ id) = l.erase x := by
  intro l
  induction l with
  | nil => intro _ x hx; cases hx
  | cons a l ih =>
    intro hnd x hx hxid
    simp only [List.map_cons, List.nodup_cons] at hnd
    rcases List.mem_cons.mp hx with rfl | hx
    · rw [List.erase_cons_head]
      rw [List.filter_cons_of_neg (by simp [hxid])]
      refine List.filter_eq_self.mpr ?_
      intro y hy
      simp only [ne_eq, decide_eq_true_eq]
      intro hyid
      exact hnd.1 (List.mem_map.mpr ⟨y, hy, by rw [hyid, hxid]⟩)
    · have haid : a.id ≠ id := by
        intro haid
        exact hnd.1 (List.mem_map.mpr ⟨x, hx, by rw [hxid, haid]⟩)
      have hax : a ≠ x := fun h => haid (h ▸ hxid)
      rw [List.filter_cons_of_pos (by simp [haid])]
      rw [List.erase_cons_tail (by simp [hax])]
      rw [ih hnd.2 x hx hxid]

/-- C7 (amended): deleting an absent id is a no-op leaving the state
untouched; deleting a present id (confirmed, write succeeding) replaces the
collection with the filtered list, which drops every set whose id matches,
and persists it; when the ids of the collection are distinct, which is the
maintained invariant, the filtered list is the collection with exactly that
one set removed. -/
theorem C7_delete_filters (confirm writeOk : Bool) (id : String)
    (st : AppState) :
    ((∀ x ∈ st.savedSessionSets, x.id ≠ id) →
      deleteSavedSessionSet confirm writeOk id st = (st, .validationNoOp)) ∧
    ((∃ x ∈ st.savedSessionSets, x.id = id) →
      (deleteSavedSessionSet true true id st).1.savedSessionSets =
        st.savedSessionSets.filter (fun x => x.id ≠ id) ∧
      (deleteSavedSessionSet true true id st).1.storage =
        some (serializeSets (st.savedSessionSets.filter (fun x => x.id ≠ id))) ∧
      (deleteSavedSessionSet true true id st).2 = .success) ∧
    (∀ x ∈ st.savedSessionSets, x.id = id →
      (st.savedSessionSets.map SavedSessionSet.id).Nodup →
      st.savedSessionSets.filter (fun x => x.id ≠ id) =
        st.savedSessionSets.erase x ∧
      (st.savedSessionSets.erase x).length + 1 =
        st.savedSessionSets.length) := by
  refine ⟨?_, ?_, ?_⟩
  · intro habs
    unfold deleteSavedSessionSet
    rw [if_pos (by simpa [List.all_eq_true] using habs)]
  · intro ⟨x, hx, hxid⟩
    unfold deleteSavedSessionSet
    rw [if_neg (by
      simp only [List.all_eq_true, not_forall]
      exact ⟨x, hx, by simp [hxid]⟩)]
    rw [if_neg (by simp), if_pos rfl]
    exact ⟨rfl, rfl, rfl⟩
  · intro x hx hxid hnd
    refine ⟨filter_ne_eq_erase id st.savedSessionSets hnd x hx hxid, ?_⟩
    have h1 := List.length_erase_of_mem hx
    have h2 := List.length_pos_of_mem hx
    omega

/-- A state holding the two example sets (distinct ids). -/
def exStoreState : AppState := ⟨0, false, [], [exSet, exSet2], none⟩

/-- Witness for C7: deleting the present id `"a"` from a concrete
collection with distinct ids persists the filtered list, which equals the
collection with exactly that set erased. -/
theorem C7_witness :
    (∃ x ∈ exStoreState.savedSessionSets, x.id = "a") ∧
    (deleteSavedSessionSet true true "a" exStoreState).1.savedSessionSets =
      exStoreState.savedSessionSets.filter (fun x => x.id ≠ "a") ∧
    exStoreState.savedSessionSets.filter (fun x => x.id ≠ "a") =
      exStoreState.savedSessionSets.erase exSet :=
  ⟨by decide,
    ((C7_delete_filters true true "a" exStoreState).2.1
      ⟨exSet, by decide, by decide⟩).1,
    ((C7_delete_filters true true "a" exStoreState).2.2 exSet (by decide)
      (by decide) (by decide)).1⟩

/-!  ## Daily breakdown lemmas -/

/-- First calendar day of the period of a key. -/
def periodStartDay (k : PeriodKey) : Nat := if k.firstHalf then 1 else 16

/-- Last calendar day of the period of a key. -/
def periodEndDay (k : PeriodKey) : Nat :=
  if k.firstHalf then 15 else daysInMonth k.year k.month

/-- Number of calendar days spanned by the period of a key. -/
def periodDayCount (k : PeriodKey) : Nat :=
  periodEndDay k + 1 - periodStartDay k

/-- Total duration recorded under a day key by the sessions of a list of
saved sets. -/
def dayTotal (sets : List SavedSessionSet) (k : Int × Nat × Nat) : Nat :=
  (((sets.flatMap (fun x => x.sessions)).filter
    (fun s => isoDayKey s.timestamp = k)).map Session.duration).sum

/-- Total duration recorded under a day key by a list of sessions. -/
def sessTotal (ss : List Session) (k : Int × Nat × Nat) : Nat :=
  ((ss.filter (fun s => isoDayKey s.timestamp = k)).map Session.duration).sum

theorem lexLe_cons_self {x : Int} {xs ys : List Int} :
    lexLe (x :: xs) (x :: ys) = lexLe xs ys := by
  simp [lexLe]

theorem lexLe_cons_ne {x y : Int} (h : x ≠ y) {xs ys : List Int} :
    lexLe (x :: xs) (y :: ys) = decide (x < y) := by
  simp [lexLe, h]

theorem leDate_mid_eod {y : Int} {m d e : Nat} :
    leDate ⟨y, m, d, 0, 0, 0, 0⟩ ⟨y, m, e, 23, 59, 59, 999⟩ = true ↔ d ≤ e := by
  unfold leDate dateFields
  dsimp only
  push_cast
  rw [lexLe_cons_self, lexLe_cons_self]
  rcases eq_or_ne ((d : Int)) ((e : Int)) with heq | hne
  · rw [heq, lexLe_cons_self, lexLe_cons_ne (by omega : (0 : Int) ≠ 23)]
    simp only [decide_eq_true_eq]
    omega
  · rw [lexLe_cons_ne hne]
    simp only [decide_eq_true_eq]
    omega

theorem nextDayDate_mk {y : Int} {m d h mi s ms : Nat} (hm : m < 12)
    (hd : d + 1 ≤ daysInMonth y m) :
    nextDayDate ⟨y, m, d, h, mi, s, ms⟩ = ⟨y, m, d + 1, h, mi, s, ms⟩ := by
  unfold nextDayDate
  simp [normYMD_self y m (d + 1) hm (by omega) hd]

theorem dayIterFuel_month {y : Int} {m : Nat} (hm : m < 12) {e : Nat}
    (he : e ≤ daysInMonth y m) :
    ∀ (n d : Nat), 1 ≤ d → d ≤ e → n = e + 1 - d →
    dayIterFuel n ⟨y, m, d, 0, 0, 0, 0⟩ ⟨y, m, e, 23, 59, 59, 999⟩ =
      (List.range' d n).map (fun j => (y, m, j)) := by
  intro n
  induction n with
  | zero => intro d h1 h2 h3; omega
  | succ n ih =>
    intro d h1 h2 h3
    simp only [dayIterFuel]
    rw [if_pos (leDate_mid_eod.mpr h2)]
    rcases eq_or_lt_of_le h2 with rfl | hlt
    · have hn : n = 0 := by omega
      subst hn
      rfl
    · rw [nextDayDate_mk hm (by omega)]
      rw [ih (d + 1) (by omega) (by omega) (by omega)]
      rfl

theorem dayIter_period (k : PeriodKey) (hm : k.month < 12) :
    dayIter (periodStart k) (periodEnd k) =
      (List.range' (periodStartDay k) (periodDayCount k)).map
        (fun d => (k.year, k.month, d)) := by
  obtain ⟨y, m, f⟩ := k
  have hm12 : m < 12 := hm
  have h28 := daysInMonth_ge y m
  have hps := periodStart_eq (show (⟨y, m, f⟩ : PeriodKey).month < 12 from hm)
  have hpe := periodEnd_eq (show (⟨y, m, f⟩ : PeriodKey).month < 12 from hm)
  cases f
  · simp only [Bool.false_eq_true, if_false] at hps hpe
    rw [hps, hpe]
    unfold dayIter
    have hfuel : (linearDay ⟨y, m, daysInMonth y m, 23, 59, 59, 999⟩ + 1 -
        linearDay ⟨y, m, 16, 0, 0, 0, 0⟩).toNat =
        daysInMonth y m + 1 - 16 := by
      simp only [linearDay]
      omega
    rw [hfuel]
    rw [dayIterFuel_month hm12 (le_refl (daysInMonth y m))
      (daysInMonth y m + 1 - 16) 16 (by omega) (by omega) (by omega)]
    have hcnt : periodDayCount ⟨y, m, false⟩ = daysInMonth y m + 1 - 16 := by
      simp [periodDayCount, periodEndDay, periodStartDay]
    have hsd : periodStartDay ⟨y, m, false⟩ = 16 := by simp [periodStartDay]
    rw [hcnt, hsd]
  · simp only [if_true] at hps hpe
    rw [hps, hpe]
    unfold dayIter
    have hfuel : (linearDay ⟨y, m, 15, 23, 59, 59, 999⟩ + 1 -
        linearDay ⟨y, m, 1, 0, 0, 0, 0⟩).toNat = 15 := by
      simp only [linearDay]
      omega
    rw [hfuel]
    rw [dayIterFuel_month hm12 (by omega : (15 : Nat) ≤ daysInMonth y m)
      15 1 (by omega) (by omega) (by omega)]
    have hcnt : periodDayCount ⟨y, m, true⟩ = 15 := by
      simp [periodDayCount, periodEndDay, periodStartDay]
    have hsd : periodStartDay ⟨y, m, true⟩ = 1 := by simp [periodStartDay]
    rw [hcnt, hsd]

theorem bumpKey_mem {data : List ((Int × Nat × Nat) × Nat)}
    {k : Int × Nat × Nat} (dur : Nat) (h : k ∈ data.map Prod.fst) :
    bumpKey data k dur =
      data.map (fun e => if e.1 = k then (e.1, e.2 + dur) else e) := by
  unfold bumpKey
  rw [if_pos]
  rw [List.any_eq_true]
  rcases List.mem_map.mp h with ⟨e, he, heq⟩
  exact ⟨e, he, by simp [heq]⟩

theorem bumpKey_keys {data : List ((Int × Nat × Nat) × Nat)}
    {k : Int × Nat × Nat} {dur : Nat} (h : k ∈ data.map Prod.fst) :
    (bumpKey data k dur).map Prod.fst = data.map Prod.fst := by
  rw [bumpKey_mem dur h, List.map_map]
  refine List.map_congr_left ?_
  intro e _
  by_cases he : e.1 = k <;> simp [he]

theorem sessTotal_cons (s : Session) (ss : List Session) (k : Int × Nat × Nat) :
    sessTotal (s :: ss) k =
      (if isoDayKey s.timestamp = k then s.duration else 0) + sessTotal ss k := by
  unfold sessTotal
  rw [List.filter_cons]
  by_cases h : isoDayKey s.timestamp = k
  · simp [h]
  · simp [h]

theorem foldl_bump_sessions :
    ∀ (ss : List Session) (data : List ((Int × Nat × Nat) × Nat)),
    (∀ s ∈ ss, isoDayKey s.timestamp ∈ data.map Prod.fst) →
    ss.foldl (fun d s => bumpKey d (isoDayKey s.timestamp) s.duration) data =
      data.map (fun e => (e.1, e.2 + sessTotal ss e.1)) := by
  intro ss
  induction ss with
  | nil =>
    intro data _
    simp [sessTotal]
  | cons s ss ih =>
    intro data hmem
    have hk : isoDayKey s.timestamp ∈ data.map Prod.fst :=
      hmem s (List.mem_cons_self s ss)
    have hstep : (s :: ss).foldl
        (fun d s => bumpKey d (isoDayKey s.timestamp) s.duration) data =
        ss.foldl (fun d s => bumpKey d (isoDayKey s.timestamp) s.duration)
          (bumpKey data (isoDayKey s.timestamp) s.duration) := rfl
    rw [hstep, ih _ (fun t ht => by
      rw [bumpKey_keys hk]
      exact hmem t (List.mem_cons_of_mem s ht))]
    rw [bumpKey_mem s.duration hk, List.map_map]
    refine List.map_congr_left ?_
    intro e _
    simp only [Function.comp_apply, sessTotal_cons]
    by_cases he : e.1 = isoDayKey s.timestamp
    · rw [if_pos he, if_pos he.symm]
      simp [Nat.add_assoc]
    · rw [if_neg he, if_neg (fun hc => he hc.symm)]
      simp

theorem foldl_sets_eq_flat (g : List ((Int × Nat × Nat) × Nat) → Session →
      List ((Int × Nat × Nat) × Nat)) :
    ∀ (sets : List SavedSessionSet) (data : List ((Int × Nat × Nat) × Nat)),
    sets.foldl (fun d x => x.sessions.foldl g d) data =
      (sets.flatMap (fun x => x.sessions)).foldl g data := by
  intro sets
  induction sets with
  | nil => intro data; rfl
  | cons x sets ih =>
    intro data
    simp only [List.foldl_cons, List.flatMap_cons, List.foldl_append]
    exact ih _

theorem aggregateDaily_eq (k : PeriodKey) (sets : List SavedSessionSet)
    (tt sc : Nat) (hm : k.month < 12)
    (hin : ∀ x ∈ sets, ∀ s ∈ x.sessions,
      isoDayKey s.timestamp ∈
        (List.range' (periodStartDay k) (periodDayCount k)).map
          (fun d => (k.year, k.month, d))) :
    aggregateDaily ⟨periodStart k, periodEnd k, sets, tt, sc⟩ =
      (List.range' (periodStartDay k) (periodDayCount k)).map
        (fun d => ((k.year, k.month, d),
          dayTotal sets (k.year, k.month, d))) := by
  unfold aggregateDaily
  rw [foldl_sets_eq_flat]
  have hkeys : (initDaily ⟨periodStart k, periodEnd k, sets, tt, sc⟩).map
      Prod.fst =
      (List.range' (periodStartDay k) (periodDayCount k)).map
        (fun d => (k.year, k.month, d)) := by
    unfold initDaily
    rw [List.map_map, dayIter_period k hm]
    simp
  rw [foldl_bump_sessions _ _ (by
    intro s hs
    rcases List.mem_flatMap.mp hs with ⟨x, hx, hsx⟩
    rw [hkeys]
    exact hin x hx s hsx)]
  unfold initDaily
  rw [dayIter_period k hm, List.map_map, List.map_map]
  refine List.map_congr_left ?_
  intro d _
  simp only [Function.comp_apply]
  have : dayTotal sets (k.year, k.month, d) =
      sessTotal (sets.flatMap (fun x => x.sessions)) (k.year, k.month, d) := rfl
  rw [this]
  simp

theorem dayKeyLe_mk {y : Int} {m d e : Nat} (h : d ≤ e) :
    dayKeyLe (y, m, d) (y, m, e) = true := by
  rcases eq_or_ne d e with rfl | hne
  · simp [dayKeyLe, lexLe]
  · have hInt : ((d : Int) ≠ (e : Int)) := by exact_mod_cast hne
    simp only [dayKeyLe, lexLe, ne_eq, not_true_eq_false, if_neg, hInt,
      not_false_eq_true, if_pos, decide_eq_true_eq]
    omega

theorem dailyArray_eq (k : PeriodKey) (sets : List SavedSessionSet)
    (tt sc : Nat) (hm : k.month < 12)
    (hin : ∀ x ∈ sets, ∀ s ∈ x.sessions,
      isoDayKey s.timestamp ∈
        (List.range' (periodStartDay k) (periodDayCount k)).map
          (fun d => (k.year, k.month, d))) :
    dailyArray ⟨periodStart k, periodEnd k, sets, tt, sc⟩ =
      (List.range' (periodStartDay k) (periodDayCount k)).map
        (fun d => ((k.year, k.month, d),
          dayTotal sets (k.year, k.month, d))) := by
  unfold dailyArray
  rw [aggregateDaily_eq k sets tt sc hm hin]
  have hpl := List.pairwise_lt_range' (periodStartDay k) (periodDayCount k)
  have hmap : ((List.range' (periodStartDay k) (periodDayCount k)).map
      (fun d => ((k.year, k.month, d),
        dayTotal sets (k.year, k.month, d)))).Pairwise entryLe := by
    rw [List.pairwise_map]
    exact hpl.imp (fun hab => dayKeyLe_mk (Nat.le_of_lt hab))
  exact List.Sorted.insertionSort_eq hmap

/-- C2 (amended): for the period of a key spanning `N = periodDayCount`
calendar days, provided every session timestamp of the member sets falls on
a day inside the period (as stored, no timezone conversion), the daily
breakdown is exactly one bucket per calendar day from the period start to
its end inclusive, in ascending order with no gaps, each bucket holding the
sum of durations of the sessions stamped on that day, and zero for days
with no sessions.  Without the proviso the code appends extra buckets for
out-of-range timestamps (see the counterexample). -/
theorem C2_daily_breakdown (k : PeriodKey) (sets : List SavedSessionSet)
    (tt sc : Nat) (hm : k.month < 12)
    (hin : ∀ x ∈ sets, ∀ s ∈ x.sessions,
      s.timestamp.year = k.year ∧ s.timestamp.month = k.month ∧
      periodStartDay k ≤ s.timestamp.day ∧ s.timestamp.day ≤ periodEndDay k) :
    dailyArray ⟨periodStart k, periodEnd k, sets, tt, sc⟩ =
      (List.range' (periodStartDay k) (periodDayCount k)).map
        (fun d => ((k.year, k.month, d),
          dayTotal sets (k.year, k.month, d))) ∧
    (dailyArray ⟨periodStart k, periodEnd k, sets, tt, sc⟩).length =
      periodDayCount k ∧
    (∀ d, periodStartDay k ≤ d → d ≤ periodEndDay k →
      (sets.flatMap (fun x => x.sessions)).filter
        (fun s => isoDayKey s.timestamp = (k.year, k.month, d)) = [] →
      ((k.year, k.month, d), 0) ∈
        dailyArray ⟨periodStart k, periodEnd k, sets, tt, sc⟩) := by
  have h28 := daysInMonth_ge k.year k.month
  have hrange : ∀ d : Nat, periodStartDay k ≤ d → d ≤ periodEndDay k →
      d ∈ List.range' (periodStartDay k) (periodDayCount k) := by
    intro d h1 h2
    refine List.mem_range'_1.mpr ⟨h1, ?_⟩
    rcases k with ⟨ky, km, kf⟩
    cases kf <;>
      simp only [periodDayCount, periodStartDay, periodEndDay] at h1 h2 h28 ⊢ <;>
      simp at h1 h2 ⊢ <;> omega
  have hin' : ∀ x ∈ sets, ∀ s ∈ x.sessions,
      isoDayKey s.timestamp ∈
        (List.range' (periodStartDay k) (periodDayCount k)).map
          (fun d => (k.year, k.month, d)) := by
    intro x hx s hs
    obtain ⟨hy, hmo, hd1, hd2⟩ := hin x hx s hs
    exact List.mem_map.mpr ⟨s.timestamp.day, hrange _ hd1 hd2,
      by simp [isoDayKey, hy, hmo]⟩
  have hmain := dailyArray_eq k sets tt sc hm hin'
  refine ⟨hmain, ?_, ?_⟩
  · rw [hmain]
    simp
  · intro d h1 h2 hempty
    rw [hmain]
    refine List.mem_map.mpr ⟨d, hrange d h1 h2, ?_⟩
    have : dayTotal sets (k.year, k.month, d) = 0 := by
      unfold dayTotal
      rw [hempty]
      rfl
    rw [this]

/-- A saved set whose `createdAt` lies in the first half of January 2024
but whose single session is stamped January 16, outside that period. -/
def exSetOutside : SavedSessionSet := ⟨"c", "C",
  [⟨3, 700, ⟨2024, 0, 16, 9, 0, 0, 0⟩⟩], 700, ⟨2024, 0, 10, 10, 0, 0, 0⟩⟩

/-- Counterexample to C2 as stated: the period January 1 to 15, 2024 spans
15 calendar days, yet with a member session stamped January 16 the daily
breakdown holds 16 entries, because the aggregation loop appends a fresh
bucket for the out-of-range day key. -/
theorem C2_counterexample :
    periodDayCount ⟨2024, 0, true⟩ = 15 ∧
    (dailyArray ⟨periodStart ⟨2024, 0, true⟩, periodEnd ⟨2024, 0, true⟩,
      [exSetOutside], 700, 1⟩).length = 16 ∧
    (dailyArray ⟨periodStart ⟨2024, 0, true⟩, periodEnd ⟨2024, 0, true⟩,
      [exSetOutside], 700, 1⟩).length ≠ periodDayCount ⟨2024, 0, true⟩ := by
  decide

/-- Witness for C2: the amended claim evaluated on the first half of
January 2024 holding one set whose session falls on January 10. -/
theorem C2_witness :
    (∀ x ∈ [exSet], ∀ s ∈ x.sessions,
      s.timestamp.year = (⟨2024, 0, true⟩ : PeriodKey).year ∧
      s.timestamp.month = (⟨2024, 0, true⟩ : PeriodKey).month ∧
      periodStartDay ⟨2024, 0, true⟩ ≤ s.timestamp.day ∧
      s.timestamp.day ≤ periodEndDay ⟨2024, 0, true⟩) ∧
    dailyArray ⟨periodStart ⟨2024, 0, true⟩, periodEnd ⟨2024, 0, true⟩,
        [exSet], 1500, 1⟩ =
      (List.range' (periodStartDay ⟨2024, 0, true⟩)
        (periodDayCount ⟨2024, 0, true⟩)).map
        (fun d => (((2024 : Int), (0 : Nat), d),
          dayTotal [exSet] (2024, 0, d))) :=
  ⟨by decide,
    (C2_daily_breakdown ⟨2024, 0, true⟩ [exSet] 1500 1 (by decide)
      (by decide)).1⟩

/-!  ## Serialization round-trip -/

/-- Dates renderable by the four-digit ISO format modelled here (years
0..9999); real `Date` values further satisfy the stricter field bounds. -/
def IsoSafe (d : JSDate) : Prop :=
  0 ≤ d.year ∧ d.year < 10000 ∧ d.month < 12 ∧ d.day < 100 ∧
    d.hour < 100 ∧ d.minute < 100 ∧ d.second < 100 ∧ d.ms < 1000

instance (d : JSDate) : Decidable (IsoSafe d) :=
  inferInstanceAs (Decidable (_ ∧ _))

theorem digitVal_digitChar {n : Nat} (h : n < 10) :
    digitVal (Nat.digitChar n) = some n := by
  interval_cases n <;> decide

theorem parse2_digits {n : Nat} (h : n < 100) :
    parse2 (Nat.digitChar (n / 10)) (Nat.digitChar (n % 10)) = some n := by
  have h1 : n / 10 < 10 := by omega
  have h2 : n % 10 < 10 := by omega
  simp only [parse2, digitVal_digitChar h1, digitVal_digitChar h2,
    Option.bind_eq_bind, Option.some_bind, Option.pure_def, Option.some.injEq]
  omega

theorem parse3_digits {n : Nat} (h : n < 1000) :
    parse3 (Nat.digitChar (n / 100)) (Nat.digitChar (n / 10 % 10))
      (Nat.digitChar (n % 10)) = some n := by
  have h1 : n / 100 < 10 := by omega
  have h2 : n / 10 % 10 < 10 := by omega
  have h3 : n % 10 < 10 := by omega
  simp only [parse3, digitVal_digitChar h1, digitVal_digitChar h2,
    digitVal_digitChar h3, Option.bind_eq_bind, Option.some_bind,
    Option.pure_def, Option.some.injEq]
  omega

theorem parse4_digits {n : Nat} (h : n < 10000) :
    parse4 (Nat.digitChar (n / 1000)) (Nat.digitChar (n / 100 % 10))
      (Nat.digitChar (n / 10 % 10)) (Nat.digitChar (n % 10)) = some n := by
  have h1 : n / 1000 < 10 := by omega
  have h2 : n / 100 % 10 < 10 := by omega
  have h3 : n / 10 % 10 < 10 := by omega
  have h4 : n % 10 < 10 := by omega
  simp only [parse4, digitVal_digitChar h1, digitVal_digitChar h2,
    digitVal_digitChar h3, digitVal_digitChar h4, Option.bind_eq_bind,
    Option.some_bind, Option.pure_def, Option.some.injEq]
  omega

theorem parseISODate_toISOString {d : JSDate} (h : IsoSafe d) :
    parseISODate (toISOString d) = some d := by
  obtain ⟨h1, h2, h3, h4, h5, h6, h7, h8⟩ := h
  have hy : d.year.toNat < 10000 := by omega
  have hmo : d.month + 1 < 100 := by omega
  unfold toISOString parseISODate pad4 pad3 pad2
  simp only [List.cons_append, List.nil_append]
  rw [if_pos (by simp)]
  rw [parse4_digits hy, parse2_digits hmo, parse2_digits h4, parse2_digits h5,
    parse2_digits h6, parse2_digits h7, parse3_digits h8]
  simp only [Option.bind_eq_bind, Option.some_bind]
  rw [if_pos (by omega)]
  have hyear : ((d.year.toNat : Nat) : Int) = d.year := Int.toNat_of_nonneg h1
  simp only [Option.some.injEq]
  ext <;> simp [hyear]

theorem parseSession_serializeSession {s : Session} (h : IsoSafe s.timestamp) :
    parseSession (serializeSession s) = some s := by
  unfold parseSession serializeSession
  rw [parseISODate_toISOString h]
  rfl

theorem mapM_parse_serialize :
    ∀ (ss : List Session), (∀ s ∈ ss, IsoSafe s.timestamp) →
    (ss.map serializeSession).mapM parseSession = some ss := by
  intro ss
  induction ss with
  | nil => intro _; rfl
  | cons s ss ih =>
    intro hsafe
    rw [List.map_cons, List.mapM_cons,
      parseSession_serializeSession (hsafe s (List.mem_cons_self s ss)),
      ih (fun t ht => hsafe t (List.mem_cons_of_mem s ht))]
    rfl

theorem parseSet_serializeSet {x : SavedSessionSet} (hca : IsoSafe x.createdAt)
    (hss : ∀ s ∈ x.sessions, IsoSafe s.timestamp) :
    parseSet (serializeSet x) = some x := by
  unfold parseSet serializeSet
  rw [parseISODate_toISOString hca]
  simp only [Option.bind_eq_bind, Option.some_bind]
  rw [mapM_parse_serialize x.sessions hss]
  rfl

theorem parseSets_serializeSets :
    ∀ (l : List SavedSessionSet),
    (∀ x ∈ l, IsoSafe x.createdAt ∧ ∀ s ∈ x.sessions, IsoSafe s.timestamp) →
    parseSets (serializeSets l) = some l := by
  intro l
  induction l with
  | nil => intro _; rfl
  | cons x l ih =>
    intro hsafe
    obtain ⟨hca, hss⟩ := hsafe x (List.mem_cons_self x l)
    unfold parseSets serializeSets
    rw [List.map_cons, List.mapM_cons, parseSet_serializeSet hca hss]
    have := ih (fun t ht => hsafe t (List.mem_cons_of_mem x ht))
    unfold parseSets serializeSets at this
    rw [this]
    rfl

theorem foldl_add_duration :
    ∀ (ss : List Session) (a : Nat),
    ss.foldl (fun total session => total + session.duration) a =
      a + (ss.map Session.duration).sum := by
  intro ss
  induction ss with
  | nil => intro a; simp
  | cons s ss ih =>
    intro a
    simp only [List.foldl_cons, List.map_cons, List.sum_cons, ih]
    omega

theorem calculateTotalTime_eq_sum (ss : List Session) :
    calculateTotalTime ss = (ss.map Session.duration).sum := by
  unfold calculateTotalTime
  rw [foldl_add_duration]
  omega

/-- C9: saving a non-empty batch (confirmed, write succeeding) persists the
serialized collection, and deserializing it (the `loadSavedSessions` path)
yields exactly the persisted sets back: the new set keeps the ids,
durations and millisecond-precision timestamps of the saved sessions and
its stored `totalTime` equals the computed total.  The `IsoSafe` hypotheses
restrict to dates the four-digit ISO format covers. -/
theorem C9_save_load_roundtrip (nowId name : String) (createdAt : JSDate)
    (st : AppState) (hne : st.sessions ≠ []) (hca : IsoSafe createdAt)
    (hbatch : ∀ s ∈ st.sessions, IsoSafe s.timestamp)
    (hold : ∀ x ∈ st.savedSessionSets, IsoSafe x.createdAt ∧
      ∀ s ∈ x.sessions, IsoSafe s.timestamp) :
    (saveSessionSet true true nowId name createdAt st).2 = .success ∧
    (saveSessionSet true true nowId name createdAt st).1.storage =
      some (serializeSets (st.savedSessionSets ++
        [mkSessionSet nowId name createdAt st.sessions])) ∧
    parseSets (serializeSets (st.savedSessionSets ++
        [mkSessionSet nowId name createdAt st.sessions])) =
      some (st.savedSessionSets ++
        [mkSessionSet nowId name createdAt st.sessions]) ∧
    (mkSessionSet nowId name createdAt st.sessions).sessions = st.sessions ∧
    (mkSessionSet nowId name createdAt st.sessions).totalTime =
      (st.sessions.map Session.duration).sum := by
  have hsave : saveSessionSet true true nowId name createdAt st =
      ({ st with
          savedSessionSets := st.savedSessionSets ++
            [mkSessionSet nowId name createdAt st.sessions]
          sessions := []
          storage := some (serializeSets (st.savedSessionSets ++
            [mkSessionSet nowId name createdAt st.sessions])) }, .success) := by
    unfold saveSessionSet
    rw [if_neg hne, if_neg (by simp), if_pos rfl]
  refine ⟨by rw [hsave], by rw [hsave], ?_, rfl,
    calculateTotalTime_eq_sum st.sessions⟩
  refine parseSets_serializeSets _ ?_
  intro x hx
  rcases List.mem_append.mp hx with hx | hx
  · exact hold x hx
  · simp only [List.mem_singleton] at hx
    subst hx
    exact ⟨hca, hbatch⟩

/-- Witness for C9 on a concrete one-session batch. -/
theorem C9_witness :
    exIdleState.sessions ≠ [] ∧
    parseSets (serializeSets (exIdleState.savedSessionSets ++
      [mkSessionSet "1" "Session" ⟨2024, 0, 10, 9, 31, 0, 0⟩
        exIdleState.sessions])) =
      some (exIdleState.savedSessionSets ++
        [mkSessionSet "1" "Session" ⟨2024, 0, 10, 9, 31, 0, 0⟩
          exIdleState.sessions]) :=
  ⟨by decide,
    (C9_save_load_roundtrip "1" "Session" ⟨2024, 0, 10, 9, 31, 0, 0⟩
      exIdleState (by decide) (by decide) (by decide) (by decide)).2.2.1⟩

/-- C4: a saved set is created with `totalTime` equal to the sum of its
session durations, and no operation changes a set after creation: save only
appends (or leaves the collection unchanged), delete only drops sets,
every set placed in a summary period is a member of the input collection,
and a persisted collection deserializes to exactly itself. -/
theorem C4_totalTime_invariant :
    (∀ (id name : String) (createdAt : JSDate) (ss : List Session),
      (mkSessionSet id name createdAt ss).totalTime =
        (ss.map Session.duration).sum) ∧
    (∀ (confirm writeOk : Bool) (nowId name : String) (createdAt : JSDate)
      (st : AppState),
      (saveSessionSet confirm writeOk nowId name createdAt
          st).1.savedSessionSets = st.savedSessionSets ∨
      (saveSessionSet confirm writeOk nowId name createdAt
          st).1.savedSessionSets =
        st.savedSessionSets ++ [mkSessionSet nowId name createdAt
          st.sessions]) ∧
    (∀ (confirm writeOk : Bool) (id : String) (st : AppState),
      ∀ x ∈ (deleteSavedSessionSet confirm writeOk id st).1.savedSessionSets,
        x ∈ st.savedSessionSets) ∧
    (∀ (sets : List SavedSessionSet), ∀ p ∈ generateSessionSummary sets,
      ∀ s ∈ p.sessions, s ∈ sets) ∧
    (∀ (l : List SavedSessionSet),
      (∀ x ∈ l, IsoSafe x.createdAt ∧ ∀ s ∈ x.sessions, IsoSafe s.timestamp) →
      parseSets (serializeSets l) = some l) := by
  refine ⟨?_, ?_, ?_, ?_, parseSets_serializeSets⟩
  · intro id name createdAt ss
    exact calculateTotalTime_eq_sum ss
  · intro confirm writeOk nowId name createdAt st
    unfold saveSessionSet
    split_ifs <;> simp
  · intro confirm writeOk id st x hx
    unfold deleteSavedSessionSet at hx
    split_ifs at hx <;>
      first
        | exact hx
        | exact List.mem_of_mem_filter hx
  · intro sets p hp s hs
    have hflat : s ∈ ((generateSessionSummary sets).map
        (fun p => p.sessions)).flatten :=
      List.mem_flatten.mpr ⟨p.sessions, List.mem_map.mpr ⟨p, hp, rfl⟩, hs⟩
    exact (summary_sessions_perm sets).mem_iff.mp hflat

/-- Witness for C4 on the concrete example collection. -/
theorem C4_witness :
    exPeriod ∈ generateSessionSummary [exSet] ∧
    exSet ∈ exPeriod.sessions ∧
    exSet ∈ [exSet] ∧
    parseSets (serializeSets [exSet]) = some [exSet] :=
  ⟨by decide, by decide,
    C4_totalTime_invariant.2.2.2.1 [exSet] exPeriod (by decide) exSet
      (by decide),
    C4_totalTime_invariant.2.2.2.2 [exSet] (by decide)⟩

end MobileTimer
